import Mathlib

/-!
Shallow embedding of `src/src/solvers/highs.rs` (the good_lp HiGHS backend):
the model builder (`highs`, `put_constraint`, `add_constraint`), the solve
driver (`solve`, status classification) and the solution view (`value`,
`dual`, `get_dual`).

Floating-point (`f64`) values are modelled as rationals: the layer only
copies them and negates one constant, so no rounding behaviour is involved.
Unbounded row lower bounds (the `..=upper` range in Rust) are modelled with
`Option` (`none` = minus infinity).  A Rust slice-index panic is modelled by
an `Option`-returning function (`none` = panic).
-/

namespace GoodLpHighs

/-- Modelled from the spec: the abstract model's objective direction
(`crate::solvers::ObjectiveDirection`, not under src/): Maximisation or
Minimisation. -/
inductive ObjectiveDirection
  | Maximisation
  | Minimisation
deriving DecidableEq

/-- The backend's objective sense (`highs::Sense`). -/
inductive Sense
  | Maximise
  | Minimise
deriving DecidableEq

/-- The backend's termination status enumeration (`highs::HighsModelStatus`).
The first nine variants are the ones `solve` matches explicitly; the last
four are the remaining variants of the backend enumeration in the crate
version this source targets, all of which reach the `_ok_status` catch-all
arm of `solve`. -/
inductive HighsModelStatus
  | NotSet
  | LoadError
  | ModelError
  | PresolveError
  | SolveError
  | PostsolveError
  | ModelEmpty
  | PrimalInfeasible
  | PrimalUnbounded
  | Optimal
  | ReachedDualObjectiveValueUpperBound
  | ReachedTimeLimit
  | ReachedIterationLimit
deriving DecidableEq

/-- Modelled from the spec: the error taxonomy
(`crate::solvers::ResolutionError`, not under src/): Infeasible, Unbounded,
and Other carrying a short stable tag. -/
inductive ResolutionError
  | Infeasible
  | Unbounded
  | Other (tag : String)
deriving DecidableEq

/-- One column of the backend's row-oriented model: objective factor and
bounds, as passed to `highs::RowProblem::add_column`. -/
structure HCol where
  factor : ℚ
  min : ℚ
  max : ℚ
deriving DecidableEq

/-- One row of the backend's row-oriented model: optional lower bound
(`none` is minus infinity), upper bound, and the sparse (column, factor)
list, as passed to `highs::RowProblem::add_row`. -/
structure HRow where
  lower : Option ℚ
  upper : ℚ
  factors : List (Nat × ℚ)
deriving DecidableEq

/-- Modelled from the spec: the backend's row-oriented model
(`highs::RowProblem`), per the downstream backend contract: columns with
bounds and objective coefficients, rows with bound pairs plus sparse
coefficients. -/
structure RowProblem where
  cols : List HCol
  rows : List HRow
deriving DecidableEq

/-- `highs::RowProblem::add_column`: appends a column, returning its handle
(`highs::Col`, modelled as the column's index). -/
def RowProblem.add_column (p : RowProblem) (factor lo hi : ℚ) :
    RowProblem × Nat :=
  ({ p with cols := p.cols ++ [⟨factor, lo, hi⟩] }, p.cols.length)

/-- `highs::RowProblem::add_row`: appends a row. -/
def RowProblem.add_row (p : RowProblem) (lower : Option ℚ) (upper : ℚ)
    (factors : List (Nat × ℚ)) : RowProblem :=
  { p with rows := p.rows ++ [⟨lower, upper, factors⟩] }

/-- Modelled from the spec: a variable definition with bounds `{min, max}`
(`crate::variable::VariableDefinition`, not under src/; the source
destructures exactly these two fields). -/
structure VariableDefinition where
  min : ℚ
  max : ℚ
deriving DecidableEq

/-- Modelled from the spec: an opaque variable handle carrying a dense
zero-based index (`crate::Variable`, not under src/). -/
structure Variable where
  index : Nat
deriving DecidableEq

/-- Modelled from the spec: a linear expression
(`crate::expression::Expression`, not under src/): a finite mapping from
variable index to coefficient, represented as an association list (the
entries `linear_coefficients()` iterates), plus a scalar constant term.
Variables absent from the mapping have coefficient 0; the spec does not
require stored coefficients to be nonzero. -/
structure LinearExpression where
  coefficients : List (Nat × ℚ)
  constant : ℚ
deriving DecidableEq

/-- Association-list lookup with default 0, the
`coefficients.get(&var).unwrap_or(&0.)` idiom. -/
def coeffOf (m : List (Nat × ℚ)) (i : Nat) : ℚ :=
  ((m.find? (fun e => e.1 == i)).map Prod.snd).getD 0

/-- Modelled from the spec: a constraint in canonical form
(`crate::Constraint`, not under src/): an expression plus an equality
flag. -/
structure Constraint where
  expression : LinearExpression
  is_equality : Bool
deriving DecidableEq

/-- Modelled from the spec: `{index}`, zero-based insertion order
(`crate::constraint::ConstraintReference`, not under src/). -/
structure ConstraintReference where
  index : Nat
deriving DecidableEq

/-- Modelled from the spec: the abstract problem handed to `highs`
(`crate::variable::UnsolvedProblem`, not under src/): variable definitions
in declaration order, the objective expression, and the direction.  The
source's field `variables` is a reserved word in Lean, hence `vars`. -/
structure UnsolvedProblem where
  vars : List VariableDefinition
  objective : LinearExpression
  direction : ObjectiveDirection
deriving DecidableEq

/-- `iter_variables_with_def()`: each variable (by index) paired with its
definition, in declaration order. -/
def UnsolvedProblem.iter_variables_with_def (u : UnsolvedProblem) :
    List (Nat × VariableDefinition) :=
  u.vars.enum

/-- The `HighsProblem` struct of the source: objective sense, the backend
row problem, the column handles (by variable index), and the row count. -/
structure HighsProblem where
  sense : Sense
  highs_problem : RowProblem
  columns : List Nat
  n_constraints : Nat
deriving DecidableEq

/-- The column-construction loop in the body of `highs`: for each
(variable, definition) pair, look up the objective coefficient (default 0),
add a column with the variable's bounds, and record the returned handle. -/
def highsLoop (obj : List (Nat × ℚ)) :
    List (Nat × VariableDefinition) → RowProblem → List Nat →
    RowProblem × List Nat
  | [], p, cols => (p, cols)
  | (i, vd) :: rest, p, cols =>
    let col_factor := coeffOf obj i
    let pc := p.add_column col_factor vd.min vd.max
    highsLoop obj rest pc.1 (cols ++ [pc.2])

/-- `highs(to_solve)`: lower the abstract problem into a `HighsProblem`. -/
def highs (to_solve : UnsolvedProblem) : HighsProblem :=
  let sense := match to_solve.direction with
    | ObjectiveDirection.Maximisation => Sense.Maximise
    | ObjectiveDirection.Minimisation => Sense.Minimise
  let r := highsLoop to_solve.objective.coefficients
    to_solve.iter_variables_with_def ⟨[], []⟩ []
  { sense := sense, highs_problem := r.1, columns := r.2, n_constraints := 0 }

/-- The `columns[variable.index()]` lookup applied to every
(variable, factor) entry of the expression; `none` models the Rust
index-out-of-bounds panic. -/
def factorsOf (columns : List Nat) :
    List (Nat × ℚ) → Option (List (Nat × ℚ))
  | [] => some []
  | (v, f) :: rest =>
    match columns[v]?, factorsOf columns rest with
    | some col, some tail => some ((col, f) :: tail)
    | _, _ => none

/-- `HighsProblem::put_constraint`: compute `upper_bound = -constant`, map
each coefficient entry to its column, add an equality row (both bounds
`upper_bound`) or an upper-bounded row (lower bound minus infinity), and
increment `n_constraints`. -/
def HighsProblem.put_constraint (p : HighsProblem) (c : Constraint) :
    Option HighsProblem :=
  let upper_bound := -c.expression.constant
  match factorsOf p.columns c.expression.coefficients with
  | none => none
  | some factors =>
    some { p with
      highs_problem :=
        if c.is_equality then
          p.highs_problem.add_row (some upper_bound) upper_bound factors
        else
          p.highs_problem.add_row none upper_bound factors,
      n_constraints := p.n_constraints + 1 }

/-- `SolverModel::add_constraint` for `HighsProblem`: delegate to
`put_constraint` and return a reference carrying `n_constraints - 1`. -/
def HighsProblem.add_constraint (p : HighsProblem) (c : Constraint) :
    Option (HighsProblem × ConstraintReference) :=
  match p.put_constraint c with
  | none => none
  | some p2 => some (p2, ⟨p2.n_constraints - 1⟩)

/-- A sequence of `add_constraint` calls, collecting the returned
references in call order. -/
def addAll (p : HighsProblem) :
    List Constraint → Option (HighsProblem × List ConstraintReference)
  | [] => some (p, [])
  | c :: rest =>
    match p.add_constraint c with
    | none => none
    | some (p2, r) =>
      match addAll p2 rest with
      | none => none
      | some (p3, refs) => some (p3, r :: refs)

/-- Modelled from the spec: the backend's solution object
(`highs::Solution`): the primal vector indexed by column
(`solution.columns()`) and the row dual vector (`solution.dual_rows()`). -/
structure BackendSolution where
  columns : List ℚ
  dual_rows : List ℚ
deriving DecidableEq

/-- The `HighsSolution` struct of the source: the backend solution, the
lazily filled dual cache, and the acquired flag. -/
structure HighsSolution where
  solution : BackendSolution
  dual_values : List ℚ
  acquired : Bool
deriving DecidableEq

/-- `SolverModel::solve` for `HighsProblem`: the classification of the
backend's termination status.  The backend call `model.solve()` itself is
opaque; its termination status and solution object are the inputs here. -/
def solve (status : HighsModelStatus) (solved : BackendSolution) :
    Except ResolutionError HighsSolution :=
  match status with
  | HighsModelStatus.NotSet => Except.error (ResolutionError.Other "NotSet")
  | HighsModelStatus.LoadError => Except.error (ResolutionError.Other "LoadError")
  | HighsModelStatus.ModelError => Except.error (ResolutionError.Other "ModelError")
  | HighsModelStatus.PresolveError => Except.error (ResolutionError.Other "PresolveError")
  | HighsModelStatus.SolveError => Except.error (ResolutionError.Other "SolveError")
  | HighsModelStatus.PostsolveError => Except.error (ResolutionError.Other "PostsolveError")
  | HighsModelStatus.ModelEmpty => Except.error (ResolutionError.Other "ModelEmpty")
  | HighsModelStatus.PrimalInfeasible => Except.error ResolutionError.Infeasible
  | HighsModelStatus.PrimalUnbounded => Except.error ResolutionError.Unbounded
  | _ => Except.ok ⟨solved, [], false⟩

/-- `Solution::value` for `HighsSolution`:
`solution.columns()[variable.index()]`; `none` models the index panic. -/
def HighsSolution.value (s : HighsSolution) (v : Variable) : Option ℚ :=
  s.solution.columns[v.index]?

/-- `SolutionWithDual::dual` for `HighsSolution`:
`dual_values[constraint.index]`; `none` models the index panic. -/
def HighsSolution.dual (s : HighsSolution) (c : ConstraintReference) :
    Option ℚ :=
  s.dual_values[c.index]?

/-- `Dual::get_dual` for `HighsSolution`: on the first call copy the
backend's row duals into the cache and set the flag; afterwards return the
solution unchanged. -/
def HighsSolution.get_dual (s : HighsSolution) : HighsSolution :=
  if !s.acquired then
    { s with dual_values := s.solution.dual_rows, acquired := true }
  else
    s

/-- `get_dual` instrumented with a flag recording whether this call read
the backend vector `solution.dual_rows()` (the then-branch). -/
def HighsSolution.get_dualFetch (s : HighsSolution) :
    HighsSolution × Bool :=
  if !s.acquired then
    ({ s with dual_values := s.solution.dual_rows, acquired := true }, true)
  else
    (s, false)

/-- The four outcome families of the spec's status table. -/
inductive Outcome
  | Infeasible
  | Unbounded
  | OtherFail
  | Success
deriving DecidableEq

/-- The outcome family of a `solve` result. -/
def resultOutcome : Except ResolutionError HighsSolution → Outcome
  | Except.error ResolutionError.Infeasible => Outcome.Infeasible
  | Except.error ResolutionError.Unbounded => Outcome.Unbounded
  | Except.error (ResolutionError.Other _) => Outcome.OtherFail
  | Except.ok _ => Outcome.Success

/-- Stated from the spec's status table (for comparison with the source):
the outcome family each backend status must land in: primal infeasible is
Infeasible, primal unbounded is Unbounded, each setup/solve/postsolve
failure, empty-model or not-run status is an Other failure, and every
remaining (success) status is Success. -/
def specOutcome : HighsModelStatus → Outcome
  | HighsModelStatus.PrimalInfeasible => Outcome.Infeasible
  | HighsModelStatus.PrimalUnbounded => Outcome.Unbounded
  | HighsModelStatus.NotSet => Outcome.OtherFail
  | HighsModelStatus.LoadError => Outcome.OtherFail
  | HighsModelStatus.ModelError => Outcome.OtherFail
  | HighsModelStatus.PresolveError => Outcome.OtherFail
  | HighsModelStatus.SolveError => Outcome.OtherFail
  | HighsModelStatus.PostsolveError => Outcome.OtherFail
  | HighsModelStatus.ModelEmpty => Outcome.OtherFail
  | _ => Outcome.Success

/-- Stated from the spec's words: the short stable tag naming each failure
family (here, the status's own name). -/
def failureTag : HighsModelStatus → String
  | HighsModelStatus.NotSet => "NotSet"
  | HighsModelStatus.LoadError => "LoadError"
  | HighsModelStatus.ModelError => "ModelError"
  | HighsModelStatus.PresolveError => "PresolveError"
  | HighsModelStatus.SolveError => "SolveError"
  | HighsModelStatus.PostsolveError => "PostsolveError"
  | HighsModelStatus.ModelEmpty => "ModelEmpty"
  | _ => ""

/-- Whether a status is one of the nine values `solve` matches
explicitly. -/
def explicitlyListed : HighsModelStatus → Bool
  | HighsModelStatus.NotSet => true
  | HighsModelStatus.LoadError => true
  | HighsModelStatus.ModelError => true
  | HighsModelStatus.PresolveError => true
  | HighsModelStatus.SolveError => true
  | HighsModelStatus.PostsolveError => true
  | HighsModelStatus.ModelEmpty => true
  | HighsModelStatus.PrimalInfeasible => true
  | HighsModelStatus.PrimalUnbounded => true
  | _ => false

/-- A two-variable abstract problem used to instantiate the universally
quantified theorems below on concrete data. -/
def exampleU : UnsolvedProblem :=
  ⟨[⟨0, 10⟩, ⟨-1, 1⟩], ⟨[(1, 3)], 0⟩, ObjectiveDirection.Maximisation⟩

/-- A concrete inequality constraint `2 x₀ - 6 ≤ 0` over `exampleU`. -/
def exCon : Constraint := ⟨⟨[(0, 2)], -6⟩, false⟩

/-- An abstract problem with malformed bounds (`min > max`) on its only
variable. -/
def exampleMalformedU : UnsolvedProblem :=
  ⟨[⟨5, 1⟩], ⟨[], 0⟩, ObjectiveDirection.Minimisation⟩

/-- A concrete solved solution: primal `[5]`, backend row duals `[7]`,
dual cache not yet acquired. -/
def exSol : HighsSolution := ⟨⟨[5], [7]⟩, [], false⟩

/-- A concrete equality constraint `2 x₀ - 4 = 0` over `exampleU`. -/
def exConEq : Constraint := ⟨⟨[(0, 2)], -4⟩, true⟩

/-- The lowered form of `exampleU`. -/
def exProb : HighsProblem := highs exampleU

/-- `exProb` after submitting the equality constraint `exConEq`. -/
def exProbEq : HighsProblem :=
  ⟨Sense.Maximise, ⟨[⟨0, 0, 10⟩, ⟨3, -1, 1⟩], [⟨some 4, 4, [(0, 2)]⟩]⟩, [0, 1], 1⟩

/-- `exProb` after submitting the inequality constraint `exCon` once. -/
def exProbOne : HighsProblem :=
  ⟨Sense.Maximise, ⟨[⟨0, 0, 10⟩, ⟨3, -1, 1⟩], [⟨none, 6, [(0, 2)]⟩]⟩, [0, 1], 1⟩

/-- `exProb` after submitting the inequality constraint `exCon` twice. -/
def exProbTwo : HighsProblem :=
  ⟨Sense.Maximise,
    ⟨[⟨0, 0, 10⟩, ⟨3, -1, 1⟩], [⟨none, 6, [(0, 2)]⟩, ⟨none, 6, [(0, 2)]⟩]⟩,
    [0, 1], 2⟩

/- ------------------------------------------------------------------ -/
/- Helper lemmas                                                      -/
/- ------------------------------------------------------------------ -/

theorem highsLoop_spec (obj : List (Nat × ℚ)) (l : List (Nat × VariableDefinition)) :
    ∀ (p : RowProblem) (acc : List Nat),
      (highsLoop obj l p acc).1.cols =
          p.cols ++ l.map (fun iv => HCol.mk (coeffOf obj iv.1) iv.2.min iv.2.max)
        ∧ (highsLoop obj l p acc).1.rows = p.rows
        ∧ (highsLoop obj l p acc).2 = acc ++ List.range' p.cols.length l.length := by
  induction l with
  | nil => intro p acc; simp [highsLoop]
  | cons hd rest ih =>
    intro p acc
    obtain ⟨i, vd⟩ := hd
    obtain ⟨h1, h2, h3⟩ :=
      ih { p with cols := p.cols ++ [⟨coeffOf obj i, vd.min, vd.max⟩] }
        (acc ++ [p.cols.length])
    refine ⟨?_, ?_, ?_⟩
    · simp only [highsLoop, RowProblem.add_column]
      rw [h1]; simp
    · simp only [highsLoop, RowProblem.add_column]
      rw [h2]
    · simp only [highsLoop, RowProblem.add_column]
      rw [h3]
      simp [List.range'_succ]

theorem highs_spec (u : UnsolvedProblem) :
    (highs u).highs_problem.cols =
        u.vars.enum.map
          (fun iv => HCol.mk (coeffOf u.objective.coefficients iv.1) iv.2.min iv.2.max)
      ∧ (highs u).highs_problem.rows = []
      ∧ (highs u).columns = List.range u.vars.length
      ∧ (highs u).n_constraints = 0 := by
  obtain ⟨h1, h2, h3⟩ :=
    highsLoop_spec u.objective.coefficients u.iter_variables_with_def ⟨[], []⟩ []
  refine ⟨?_, ?_, ?_, rfl⟩
  · simpa [highs, UnsolvedProblem.iter_variables_with_def] using h1
  · simpa [highs, UnsolvedProblem.iter_variables_with_def] using h2
  · rw [List.range_eq_range']
    simpa [highs, UnsolvedProblem.iter_variables_with_def, List.enum_length] using h3

theorem factorsOf_spec (columns : List Nat) (entries : List (Nat × ℚ)) :
    ∀ fs : List (Nat × ℚ), factorsOf columns entries = some fs →
      fs.length = entries.length
      ∧ ∀ (k v : Nat) (f : ℚ), entries[k]? = some (v, f) →
          ∃ col : Nat, columns[v]? = some col ∧ fs[k]? = some (col, f) := by
  induction entries with
  | nil =>
    intro fs h
    simp [factorsOf] at h
    subst h
    simp
  | cons e rest ih =>
    intro fs h
    obtain ⟨v, f⟩ := e
    simp only [factorsOf] at h
    cases hcol : columns[v]? with
    | none => rw [hcol] at h; simp at h
    | some col =>
      rw [hcol] at h
      cases htail : factorsOf columns rest with
      | none => rw [htail] at h; simp at h
      | some tail =>
        rw [htail] at h
        simp at h
        subst h
        obtain ⟨ihlen, ihk⟩ := ih tail htail
        refine ⟨by simp [ihlen], ?_⟩
        intro k w g hk
        match k with
        | 0 =>
          simp at hk
          obtain ⟨rfl, rfl⟩ := hk
          exact ⟨col, hcol, by simp⟩
        | k + 1 =>
          simp at hk
          obtain ⟨col2, hc2, hf2⟩ := ihk k w g (by simpa using hk)
          exact ⟨col2, hc2, by simpa using hf2⟩

theorem factorsOf_total (columns : List Nat) (entries : List (Nat × ℚ))
    (h : ∀ e ∈ entries, e.1 < columns.length) :
    ∃ fs : List (Nat × ℚ), factorsOf columns entries = some fs := by
  induction entries with
  | nil => exact ⟨[], rfl⟩
  | cons e rest ih =>
    obtain ⟨v, f⟩ := e
    obtain ⟨tail, htail⟩ := ih (fun e he => h e (List.mem_cons_of_mem _ he))
    have hv : v < columns.length := h (v, f) (List.mem_cons_self _ _)
    refine ⟨(columns.get ⟨v, hv⟩, f) :: tail, ?_⟩
    simp only [factorsOf, htail, List.getElem?_eq_getElem hv]
    simp

theorem put_constraint_spec (p : HighsProblem) (c : Constraint) (p2 : HighsProblem)
    (h : p.put_constraint c = some p2) :
    ∃ fs : List (Nat × ℚ),
      factorsOf p.columns c.expression.coefficients = some fs
      ∧ p2 = { p with
          highs_problem :=
            { p.highs_problem with
              rows := p.highs_problem.rows ++
                [⟨if c.is_equality then some (-c.expression.constant) else none,
                  -c.expression.constant, fs⟩] },
          n_constraints := p.n_constraints + 1 } := by
  unfold HighsProblem.put_constraint at h
  cases hf : factorsOf p.columns c.expression.coefficients with
  | none => rw [hf] at h; simp at h
  | some fs =>
    rw [hf] at h
    simp only [Option.some.injEq] at h
    refine ⟨fs, rfl, ?_⟩
    subst h
    cases hc : c.is_equality <;> simp [hc, RowProblem.add_row]

/- ------------------------------------------------------------------ -/
/- Claim theorems                                                     -/
/- ------------------------------------------------------------------ -/

/-- C1 counterexample: `ReachedTimeLimit` is a backend status value not
among the nine explicitly listed in the classification, yet `solve`
succeeds on it (returns `Ok`), rather than returning the
`ResolutionError.Other` failure path as the claim states. -/
theorem c1_counterexample :
    explicitlyListed HighsModelStatus.ReachedTimeLimit = false
    ∧ solve HighsModelStatus.ReachedTimeLimit ⟨[1], []⟩ =
        Except.ok ⟨⟨[1], []⟩, [], false⟩
    ∧ resultOutcome (solve HighsModelStatus.ReachedTimeLimit ⟨[1], []⟩) =
        Outcome.Success :=
  ⟨rfl, rfl, rfl⟩

/-- C1 (amended): for every backend termination status value not explicitly
listed in the classification, `solve` lands in the catch-all `_ok_status`
arm and succeeds: it returns `Ok` of a solution wrapping the backend's
primal vector with an empty, not-yet-acquired dual cache (it neither
panics nor returns an error). -/
theorem c1_unlisted_status_succeeds (st : HighsModelStatus)
    (bs : BackendSolution) (h : explicitlyListed st = false) :
    solve st bs = Except.ok ⟨bs, [], false⟩ := by
  cases st <;> first | rfl | simp [explicitlyListed] at h

/-- C1 witness: the amended theorem applied to the concrete unlisted status
`Optimal`. -/
theorem c1_witness :
    solve HighsModelStatus.Optimal ⟨[2], [3]⟩ = Except.ok ⟨⟨[2], [3]⟩, [], false⟩ :=
  c1_unlisted_status_succeeds HighsModelStatus.Optimal ⟨[2], [3]⟩ rfl

/-- C2: for every backend termination status, `solve` lands in exactly one
of the four outcome families of the spec's table (`PrimalInfeasible` to
`Infeasible`, `PrimalUnbounded` to `Unbounded`, every setup/solve/postsolve
failure, empty-model or not-run status to `Other` with the tag naming the
failure family, every remaining success status to `Ok`), and every success
wraps the backend's primal vector with an empty, not-yet-acquired dual
cache. -/
theorem c2_status_classification (st : HighsModelStatus) (bs : BackendSolution) :
    resultOutcome (solve st bs) = specOutcome st
    ∧ (specOutcome st = Outcome.OtherFail →
        solve st bs = Except.error (ResolutionError.Other (failureTag st)))
    ∧ (∀ s : HighsSolution, solve st bs = Except.ok s → s = ⟨bs, [], false⟩) := by
  cases st <;>
    exact ⟨rfl,
      by intro h; first | rfl | simp [specOutcome] at h,
      by intro s h; first | exact (Except.ok.inj h).symm | simp [solve] at h⟩

/-- C2 witness: the classification applied to the concrete status
`SolveError`. -/
theorem c2_witness :
    resultOutcome (solve HighsModelStatus.SolveError ⟨[], []⟩) =
        specOutcome HighsModelStatus.SolveError
    ∧ solve HighsModelStatus.SolveError ⟨[], []⟩ =
        Except.error (ResolutionError.Other "SolveError") :=
  ⟨(c2_status_classification HighsModelStatus.SolveError ⟨[], []⟩).1,
    (c2_status_classification HighsModelStatus.SolveError ⟨[], []⟩).2.1 rfl⟩

/-- C6: `get_dual` is idempotent: the first call on an unacquired solution
copies the backend's row duals into the cache once and sets the acquired
flag; a call on an acquired solution performs no backend fetch (the
instrumented fetch flag is `false`) and changes nothing, so two calls yield
the same cached data as one. -/
theorem c6_get_dual_idempotent (s : HighsSolution) :
    s.get_dual.get_dual = s.get_dual
    ∧ s.get_dual = (s.get_dualFetch).1
    ∧ (s.get_dual.get_dualFetch).2 = false
    ∧ s.get_dual.acquired = true
    ∧ (s.acquired = false →
        s.get_dual.dual_values = s.solution.dual_rows ∧ (s.get_dualFetch).2 = true)
    ∧ (s.acquired = true → s.get_dual = s ∧ (s.get_dualFetch).2 = false) := by
  obtain ⟨sol, dv, acq⟩ := s
  cases acq <;>
    simp [HighsSolution.get_dual, HighsSolution.get_dualFetch]

/-- C6 witness: the idempotence theorem applied to the concrete unacquired
solution `exSol`. -/
theorem c6_witness :
    exSol.get_dual.get_dual = exSol.get_dual
    ∧ exSol.get_dual.dual_values = exSol.solution.dual_rows
    ∧ (exSol.get_dual.get_dualFetch).2 = false :=
  ⟨(c6_get_dual_idempotent exSol).1,
    ((c6_get_dual_idempotent exSol).2.2.2.2.1 rfl).1,
    (c6_get_dual_idempotent exSol).2.2.1⟩

/-- C7: for a variable whose index is within the primal vector, `value`
returns the primal entry at the variable's column index; bounds are not
re-validated, so for an out-of-range index the lookup hits the panic
branch (modelled as `none`) rather than recovering. -/
theorem c7_value (s : HighsSolution) (v : Variable) :
    (∀ h : v.index < s.solution.columns.length,
        s.value v = some (s.solution.columns.get ⟨v.index, h⟩))
    ∧ (s.solution.columns.length ≤ v.index → s.value v = none) := by
  constructor
  · intro h
    simp [HighsSolution.value, List.getElem?_eq_getElem h]
  · intro h
    simp [HighsSolution.value, List.getElem?_eq_none h]

/-- C7 witness: `value` on `exSol` at the in-range index 0 returns the
primal entry 5, and at the out-of-range index 3 hits the panic branch. -/
theorem c7_witness :
    exSol.value ⟨0⟩ = some 5 ∧ exSol.value ⟨3⟩ = none := by
  have h1 := (c7_value exSol ⟨0⟩).1 (by decide)
  have h2 := (c7_value exSol ⟨3⟩).2 (by decide)
  exact ⟨by simpa [exSol] using h1, h2⟩

/-- C3: `put_constraint` on a constraint with expression `Σ cᵢxᵢ + k`
appends exactly one row whose upper bound is `-k`; when the constraint is
an equality the row's lower bound is also `-k`, otherwise the lower bound
is minus infinity (`none`), encoding `Σ cᵢxᵢ ≤ -k`. -/
theorem c3_bound_encoding (p : HighsProblem) (c : Constraint)
    (p2 : HighsProblem) (h : p.put_constraint c = some p2) :
    ∃ row : HRow,
      p2.highs_problem.rows = p.highs_problem.rows ++ [row]
      ∧ row.upper = -c.expression.constant
      ∧ row.lower =
          (if c.is_equality then some (-c.expression.constant) else none) := by
  obtain ⟨fs, _, hp2⟩ := put_constraint_spec p c p2 h
  subst hp2
  exact ⟨_, rfl, rfl, rfl⟩

/-- C3 witness: the bound encoding applied to the concrete equality
constraint `2 x₀ - 4 = 0` (`bound = 4` on both sides). -/
theorem c3_witness :
    ∃ row : HRow,
      exProbEq.highs_problem.rows = exProb.highs_problem.rows ++ [row]
      ∧ row.upper = -exConEq.expression.constant
      ∧ row.lower =
          (if exConEq.is_equality then some (-exConEq.expression.constant)
            else none) :=
  c3_bound_encoding exProb exConEq exProbEq (by decide)

/-- A single `add_constraint` call returns the pre-call `n_constraints` as
the index and increments the counter and the row count by one. -/
theorem add_constraint_step (p : HighsProblem) (c : Constraint)
    (p2 : HighsProblem) (r : ConstraintReference)
    (h : p.add_constraint c = some (p2, r)) :
    r.index = p.n_constraints
    ∧ p2.n_constraints = p.n_constraints + 1
    ∧ p2.highs_problem.rows.length = p.highs_problem.rows.length + 1 := by
  unfold HighsProblem.add_constraint at h
  cases hp : p.put_constraint c with
  | none => rw [hp] at h; simp at h
  | some q =>
    rw [hp] at h
    simp at h
    obtain ⟨rfl, rfl⟩ := h
    obtain ⟨fs, _, hq⟩ := put_constraint_spec p c q hp
    subst hq
    simp

/-- `addAll` starting from counter `n` yields the references
`n, n + 1, ...` and advances the counter and row count by the number of
constraints. -/
theorem addAll_spec (cs : List Constraint) :
    ∀ (p p2 : HighsProblem) (refs : List ConstraintReference),
      addAll p cs = some (p2, refs) →
      refs.map ConstraintReference.index = List.range' p.n_constraints cs.length
      ∧ p2.n_constraints = p.n_constraints + cs.length
      ∧ p2.highs_problem.rows.length =
          p.highs_problem.rows.length + cs.length := by
  induction cs with
  | nil =>
    intro p p2 refs h
    simp [addAll] at h
    obtain ⟨rfl, rfl⟩ := h
    simp
  | cons c rest ih =>
    intro p p2 refs h
    simp only [addAll] at h
    cases h1 : p.add_constraint c with
    | none => rw [h1] at h; simp at h
    | some pr =>
      rw [h1] at h
      obtain ⟨pmid, r⟩ := pr
      dsimp only at h
      cases h2 : addAll pmid rest with
      | none => rw [h2] at h; simp at h
      | some q =>
        rw [h2] at h
        obtain ⟨p3, refs2⟩ := q
        simp at h
        obtain ⟨rfl, rfl⟩ := h
        obtain ⟨hi, hn, hr⟩ := add_constraint_step p c pmid r h1
        obtain ⟨ih1, ih2, ih3⟩ := ih pmid p3 refs2 h2
        simp only [List.length_cons]
        refine ⟨?_, by omega, by omega⟩
        rw [List.range'_succ]
        simp only [List.map_cons, ih1, hi, hn]

/-- C4: starting from a freshly built problem, the n-th `add_constraint`
call (0-based) returns a reference whose index is n, i.e. the
`n_constraints` count (equal to the row count) before the call; the
collected indices are exactly `0, 1, ..., len - 1`: strictly increasing,
no gaps, no reuse, and no call renumbers a previously returned index. -/
theorem c4_constraint_indices (u : UnsolvedProblem) (cs : List Constraint)
    (p2 : HighsProblem) (refs : List ConstraintReference)
    (h : addAll (highs u) cs = some (p2, refs)) :
    refs.map ConstraintReference.index = List.range cs.length
    ∧ p2.n_constraints = cs.length
    ∧ p2.highs_problem.rows.length = cs.length
    ∧ (∀ (q q2 : HighsProblem) (c : Constraint) (r : ConstraintReference),
        q.add_constraint c = some (q2, r) →
          r.index = q.n_constraints
          ∧ q2.n_constraints = q.n_constraints + 1) := by
  obtain ⟨h1, h2, h3⟩ := addAll_spec cs (highs u) p2 refs h
  obtain ⟨_, hrows, _, hn⟩ := highs_spec u
  rw [hn] at h1 h2
  rw [hrows] at h3
  refine ⟨?_, by omega, by simpa using h3, ?_⟩
  · rw [List.range_eq_range']
    simpa using h1
  · intro q q2 c r hq
    exact ⟨(add_constraint_step q c q2 r hq).1,
      (add_constraint_step q c q2 r hq).2.1⟩

/-- C4 witness: adding the same concrete constraint twice to the lowered
`exampleU` yields the reference indices `[0, 1] = range 2`. -/
theorem c4_witness :
    List.map ConstraintReference.index [⟨0⟩, ⟨1⟩] = List.range 2
    ∧ exProbTwo.n_constraints = 2 :=
  ⟨(c4_constraint_indices exampleU [exCon, exCon] exProbTwo [⟨0⟩, ⟨1⟩]
      (by decide)).1,
    (c4_constraint_indices exampleU [exCon, exCon] exProbTwo [⟨0⟩, ⟨1⟩]
      (by decide)).2.1⟩

/-- C5: `highs` creates exactly one column per variable, in declaration
order: the number of columns equals the number of variables, the returned
column handles are exactly the variable indices `0, ..., n - 1`, and the
i-th column carries the i-th variable's bounds `[min, max]` and an
objective factor equal to that variable's coefficient in the objective's
linear part (0 when absent). -/
theorem c5_columns (u : UnsolvedProblem) :
    (highs u).highs_problem.cols.length = u.vars.length
    ∧ (highs u).columns = List.range u.vars.length
    ∧ ∀ (i : Nat) (vd : VariableDefinition), u.vars[i]? = some vd →
        (highs u).highs_problem.cols[i]? =
          some ⟨coeffOf u.objective.coefficients i, vd.min, vd.max⟩ := by
  obtain ⟨h1, _, h3, _⟩ := highs_spec u
  refine ⟨?_, h3, ?_⟩
  · rw [h1]
    simp [List.enum_length]
  · intro i vd hv
    rw [h1, List.getElem?_map, List.getElem?_enum, hv]
    rfl

/-- C5 witness: the column layout of the concrete two-variable problem
`exampleU` (second variable: bounds `[-1, 1]`, objective coefficient 3). -/
theorem c5_witness :
    (highs exampleU).highs_problem.cols.length = exampleU.vars.length
    ∧ (highs exampleU).columns = List.range 2
    ∧ (highs exampleU).highs_problem.cols[1]? = some ⟨3, -1, 1⟩ := by
  obtain ⟨h1, h2, h3⟩ := c5_columns exampleU
  refine ⟨h1, by simpa [exampleU] using h2, ?_⟩
  have hv := h3 1 ⟨-1, 1⟩ (by decide)
  simpa [show coeffOf exampleU.objective.coefficients 1 = 3 from rfl] using hv

/-- C8 counterexample: a constraint whose expression stores the entry
`(x₀, 0)` — variable 0 with coefficient 0 — yields a row whose sparse
factor list references column 0 anyway, so the appended row does reference
the column of a variable whose coefficient is zero. -/
theorem c8_counterexample :
    ((highs ⟨[⟨0, 1⟩], ⟨[], 0⟩, ObjectiveDirection.Minimisation⟩).put_constraint
        ⟨⟨[(0, 0)], 0⟩, false⟩).map
        (fun q => q.highs_problem.rows.map HRow.factors) = some [[(0, 0)]]
    ∧ coeffOf [(0, 0)] 0 = 0 := by
  exact ⟨by decide, by decide⟩

/-- C8 (amended): the appended row's sparse coefficient list has exactly
one entry per entry of the expression's linear-coefficient map, each
referencing the corresponding variable's column with that coefficient — so
variables absent from the map never appear in the row, but an explicitly
stored zero-coefficient entry does. -/
theorem c8_row_factors (p : HighsProblem) (c : Constraint)
    (p2 : HighsProblem) (h : p.put_constraint c = some p2) :
    ∃ row : HRow,
      p2.highs_problem.rows = p.highs_problem.rows ++ [row]
      ∧ row.factors.length = c.expression.coefficients.length
      ∧ ∀ (k v : Nat) (f : ℚ), c.expression.coefficients[k]? = some (v, f) →
          ∃ col : Nat, p.columns[v]? = some col
            ∧ row.factors[k]? = some (col, f) := by
  obtain ⟨fs, hfs, hp2⟩ := put_constraint_spec p c p2 h
  subst hp2
  obtain ⟨hlen, hk⟩ := factorsOf_spec p.columns c.expression.coefficients fs hfs
  exact ⟨_, rfl, hlen, hk⟩

/-- C8 witness: the amended row-factor correspondence applied to the
concrete inequality constraint `exCon` over `exProb`. -/
theorem c8_witness :
    ∃ row : HRow,
      exProbOne.highs_problem.rows = exProb.highs_problem.rows ++ [row]
      ∧ row.factors.length = exCon.expression.coefficients.length
      ∧ ∀ (k v : Nat) (f : ℚ), exCon.expression.coefficients[k]? = some (v, f) →
          ∃ col : Nat, exProb.columns[v]? = some col
            ∧ row.factors[k]? = some (col, f) :=
  c8_row_factors exProb exCon exProbOne (by decide)

/-- C9: the builder layer never fails: for every constraint whose variables
belong to the model (each stored entry's index is a valid column),
`put_constraint` completes — the per-coefficient column lookup never hits
the out-of-bounds branch — and appends exactly one row while incrementing
the counter, regardless of variable bounds (malformed `min > max` bounds
are never inspected) and also for an empty expression. -/
theorem c9_builder_never_fails (p : HighsProblem) (c : Constraint)
    (h : ∀ e ∈ c.expression.coefficients, e.1 < p.columns.length) :
    ∃ p2 : HighsProblem, p.put_constraint c = some p2
      ∧ p2.highs_problem.rows.length = p.highs_problem.rows.length + 1
      ∧ p2.n_constraints = p.n_constraints + 1 := by
  obtain ⟨fs, hfs⟩ := factorsOf_total p.columns c.expression.coefficients h
  have hsome : p.put_constraint c =
      some { p with
        highs_problem :=
          if c.is_equality then
            p.highs_problem.add_row (some (-c.expression.constant))
              (-c.expression.constant) fs
          else
            p.highs_problem.add_row none (-c.expression.constant) fs,
        n_constraints := p.n_constraints + 1 } := by
    simp only [HighsProblem.put_constraint, hfs]
  refine ⟨_, hsome, ?_, rfl⟩
  cases hc : c.is_equality <;> simp [hc, RowProblem.add_row]

/-- C9 witness: the no-failure theorem applied to a model whose only
variable has malformed bounds (`min 5 > max 1`) and to a nonempty
equality constraint over it. -/
theorem c9_witness :
    ∃ p2 : HighsProblem,
      (highs exampleMalformedU).put_constraint ⟨⟨[(0, 2)], 3⟩, true⟩ = some p2
      ∧ p2.highs_problem.rows.length =
          (highs exampleMalformedU).highs_problem.rows.length + 1
      ∧ p2.n_constraints = (highs exampleMalformedU).n_constraints + 1 :=
  c9_builder_never_fails (highs exampleMalformedU) ⟨⟨[(0, 2)], 3⟩, true⟩
    (by decide)

/-- C10: a solution produced by a successful `solve` starts with an empty
dual cache, so before `get_dual` the `dual` lookup hits the out-of-bounds
branch (`none`) for every constraint index; after `get_dual`, for every
index within the backend's row-dual vector, `dual` returns exactly that
vector's entry at the constraint's row index. -/
theorem c10_dual_lookup (st : HighsModelStatus) (bs : BackendSolution)
    (s : HighsSolution) (h : solve st bs = Except.ok s) :
    (∀ c : ConstraintReference, s.dual c = none)
    ∧ ∀ (c : ConstraintReference) (hc : c.index < bs.dual_rows.length),
        s.get_dual.dual c = some (bs.dual_rows.get ⟨c.index, hc⟩) := by
  have hs : s = ⟨bs, [], false⟩ := by
    cases st <;> simp [solve] at h <;> exact h.symm
  subst hs
  constructor
  · intro c
    simp [HighsSolution.dual]
  · intro c hc
    simp [HighsSolution.get_dual, HighsSolution.dual,
      List.getElem?_eq_getElem hc]

/-- C10 witness: on the concrete solved solution `exSol` (row duals `[7]`),
the dual of constraint 0 is `none` before the cache fill and `7` after. -/
theorem c10_witness :
    exSol.dual ⟨0⟩ = none ∧ exSol.get_dual.dual ⟨0⟩ = some 7 := by
  have h := c10_dual_lookup HighsModelStatus.Optimal ⟨[5], [7]⟩ exSol rfl
  exact ⟨h.1 ⟨0⟩, by simpa using h.2 ⟨0⟩ (by decide)⟩

end GoodLpHighs
